import Mathlib

/-!
Verification of the snowfall rendering core (snow.cpp).

The development shallowly embeds the program: 32-bit packed colors become a
structure of four natural-number channels (each kept below 256 by the same
`% 256` reductions the 8-bit stores perform), `double` arithmetic becomes
exact rational arithmetic (no claim below depends on binary floating-point
rounding error), the framebuffer becomes a map from integer coordinates to
32-bit pixel values (one cell per 4-byte pixel; the pitch-based byte
addressing of `GetPixel` is abstracted to coordinates), and the pixel loops
of `FillRect` become explicit recursions over the same index ranges.

Helpers that live in the repository's headers (`math.cpp`, `snow.h`,
`render.h`) are not part of the provided source; each such definition
carries a doc comment starting with `Modelled from the spec:`.
-/

namespace Snow

/-- Packed 32-bit color: four 8-bit channels (alpha, red, green, blue), as in
the `Color` union of snow.h (spec §3 "PackedColor"). -/
structure Color where
  a : ℕ
  r : ℕ
  g : ℕ
  b : ℕ
deriving DecidableEq

/-- Normalized floating-point color, as in the `DoubleColor` struct
(spec §3 "NormalizedColor"); doubles are embedded as rationals. -/
structure DoubleColor where
  a : ℚ
  r : ℚ
  g : ℚ
  b : ℚ
deriving DecidableEq

/-- The `argb` view of the `Color` union: the four 8-bit channels packed into
one 32-bit word, high byte alpha (layout fixed by `GetDoubleColor`'s shifts
and the pixel writes in `FillRect`). The `% 256` reductions are the 8-bit
stores into the channel fields. -/
def argb (c : Color) : ℕ :=
  c.a % 256 * 2 ^ 24 + c.r % 256 * 2 ^ 16 + c.g % 256 * 2 ^ 8 + c.b % 256

/-- Reading a 32-bit pixel through the channel fields of the `Color` union,
as `Color destColor = {*pixel}` does in `FillRect`. -/
def colorOfArgb (v : ℕ) : Color :=
  ⟨v / 2 ^ 24 % 256, v / 2 ^ 16 % 256, v / 2 ^ 8 % 256, v % 256⟩

/-- Modelled from the spec: rounding of a double to the nearest integer,
ties away from zero (§4.1), shared by `RoundDoubleToUInt32` and
`RoundDoubleToInt32` of the missing math.cpp. -/
def roundHalfAway (q : ℚ) : ℤ :=
  if 0 ≤ q then ⌊q + 1 / 2⌋ else -⌊-q + 1 / 2⌋

/-- Modelled from the spec: `RoundDoubleToUInt32` from math.cpp (missing from
src); §4.1 says each channel is rounded to the nearest integer. Negative
input is undefined behaviour in the original; `Int.toNat` picks 0. -/
def RoundDoubleToUInt32 (q : ℚ) : ℕ :=
  (roundHalfAway q).toNat

/-- Modelled from the spec: `RoundDoubleToInt32` from math.cpp (missing from
src); §4.3 step 1 rounds the real-valued rectangle bounds to the nearest
integer. -/
def RoundDoubleToInt32 (q : ℚ) : ℤ :=
  roundHalfAway q

/-- Modelled from the spec: `Lerp` from math.cpp (missing from src); §4.2
gives `result.channel = dst.channel + percent × (src.channel − dst.channel)`,
so `Lerp a b t` interpolates from `b` toward `a`. -/
def Lerp (a b t : ℚ) : ℚ :=
  b + t * (a - b)

/-- Store of the double `Lerp` result into an 8-bit channel field of
`Color` (the assignments in `Composite`): C truncation toward zero of the
in-range nonnegative value, then the 8-bit store. -/
def toByte (q : ℚ) : ℕ :=
  (⌊q⌋).toNat % 256

/-- Embedding of `GetColor` (snow.cpp:36-44): convert a double color to a packed color;
each channel is scaled by 255, rounded, and stored into an 8-bit field. -/
def GetColor (c : DoubleColor) : Color :=
  ⟨RoundDoubleToUInt32 (c.a * 255) % 256,
   RoundDoubleToUInt32 (c.r * 255) % 256,
   RoundDoubleToUInt32 (c.g * 255) % 256,
   RoundDoubleToUInt32 (c.b * 255) % 256⟩

/-- Embedding of `GetDoubleColor` (snow.cpp:54-62): convert a 32-bit argb color to a
normalized color, each channel divided by 255. -/
def GetDoubleColor (c : ℕ) : DoubleColor :=
  ⟨(((c >>> 24) &&& 255 : ℕ) : ℚ) / 255,
   (((c >>> 16) &&& 255 : ℕ) : ℚ) / 255,
   (((c >>> 8) &&& 255 : ℕ) : ℚ) / 255,
   (((c >>> 0) &&& 255 : ℕ) : ℚ) / 255⟩

/-- Embedding of `Composite` (snow.cpp:73-82): source-over blend; `percent = src.a / 255`
is inlined at each use. Result alpha is `src.a`; each color channel is the
`Lerp` of the channels by `percent`, stored into an 8-bit field. -/
def Composite (src dest : Color) : Color :=
  ⟨src.a,
   toByte (Lerp (src.r : ℚ) (dest.r : ℚ) ((src.a : ℚ) / 255)),
   toByte (Lerp (src.g : ℚ) (dest.g : ℚ) ((src.a : ℚ) / 255)),
   toByte (Lerp (src.b : ℚ) (dest.b : ℚ) ((src.a : ℚ) / 255))⟩

/-- The framebuffer, one 32-bit pixel value per integer coordinate. The
byte-level `pitch`/`pixelBytes` addressing of `GetPixel` (snow.cpp:22-26) is
abstracted to coordinates, which is faithful whenever
`pitch ≥ width × pixelBytes` (spec §3). -/
abbrev Pix : Type := ℤ → ℤ → ℕ

/-- Single pixel store `*pixel = v` at coordinate (x, y). -/
def writeAt (px : Pix) (x y : ℤ) (v : ℕ) : Pix :=
  fun a b => if a = x ∧ b = y then v else px a b

/-- The per-pixel body of the `FillRect` loops (snow.cpp:138-147): if
`srcColor.a == 1` overwrite with `srcColor.argb`, otherwise read the
existing pixel, blend with `Composite`, and write the result. -/
def fillPixel (src : Color) (old : ℕ) : ℕ :=
  if src.a = 1 then argb src
  else argb (Composite src (colorOfArgb old))

/-- Integer interval [lo, hi) as the list of loop indices, in order. -/
def intRange (lo hi : ℤ) : List ℤ :=
  (List.range (hi - lo).toNat).map fun (i : ℕ) => lo + (i : ℤ)

/-- Inner loop of `FillRect` (snow.cpp:137-148): walk the x indices of one
row, storing the fill result at each pixel in turn. -/
def fillCols (src : Color) (y : ℤ) : List ℤ → Pix → Pix
  | [], px => px
  | x :: xs, px => fillCols src y xs (writeAt px x y (fillPixel src (px x y)))

/-- Outer loop of `FillRect` (snow.cpp:135-150): process each row. -/
def fillRows (src : Color) (xs : List ℤ) : List ℤ → Pix → Pix
  | [], px => px
  | y :: ys, px => fillRows src xs ys (fillCols src y xs px)

/-- Embedding of `FillRect` (snow.cpp:121-151): round the four real bounds, clamp the
minima to 0 and the maxima to the buffer extent, then fill every pixel of
the clipped rectangle row by row. -/
def FillRect (width height : ℤ) (px : Pix)
    (realMinX realMinY realMaxX realMaxY : ℚ) (srcColor : Color) : Pix :=
  fillRows srcColor
    (intRange (max 0 (RoundDoubleToInt32 realMinX))
      (min width (RoundDoubleToInt32 realMaxX)))
    (intRange (max 0 (RoundDoubleToInt32 realMinY))
      (min height (RoundDoubleToInt32 realMaxY)))
    px

/-- The fixed background color of `UpdateAndRender` (snow.cpp:235). -/
def background : DoubleColor := ⟨1, 0.01, 0.02, 0.05⟩

/-- The background-clear stage of `UpdateAndRender` (snow.cpp:236):
`FillRect(buffer, 0, 0, width, height, GetColor(background))`. -/
def backgroundFill (w h : ℤ) (px : Pix) : Pix :=
  FillRect w h px 0 0 (w : ℚ) (h : ℚ) (GetColor background)

/-- Particle (snow.h, missing from src; spec §3): floating-point position
and radius, a normalized color, an integer remaining lifetime, and the
same-type free-list link, modelled as an optional slot index. -/
structure Particle where
  x : ℚ
  y : ℚ
  radius : ℚ
  color : DoubleColor
  lifetime : ℤ
  next : Option ℕ
deriving DecidableEq

/-- A zeroed particle slot, the content of the host's zero-initialized
memory block before one-time setup (spec §6); the free-list build relies on
the zeroed link of the last slot (spec §4.4). -/
def zeroParticle : Particle :=
  ⟨0, 0, 0, ⟨0, 0, 0, 0⟩, 0, none⟩

/-- Embedding of `InitParticle` (snow.cpp:177-187). `randVal` is the `Random()` draw used
for the x position (`Random() % buffer->width`), `pct` the `RandomPercent()`
draw used for the alpha. The float literals 2.5f, 0.55f, 0.9f, 1.0f are
embedded by their decimal values. The free-list link is left untouched. -/
def InitParticle (width : ℤ) (randVal : ℕ) (pct : ℚ) (p : Particle) : Particle :=
  let p1 := { p with radius := (5 : ℚ) / 2 }
  let p2 := { p1 with x := ((randVal % width.toNat : ℕ) : ℚ) }
  let p3 := { p2 with y := -2 * p2.radius }
  let p4 := { p3 with color := ⟨1 / 4 + 3 / 4 * pct, 0.55, 0.9, 1⟩ }
  { p4 with lifetime := 200 }

/-- Embedding of `AnimateParticle` (snow.cpp:198-203): zero horizontal velocity, vertical
position advances by 160 per elapsed second, lifetime decremented by one. -/
def AnimateParticle (p : Particle) (secondsElapsed : ℚ) : Particle :=
  { p with
    x := p.x + 0,
    y := p.y + 160 * secondsElapsed,
    lifetime := p.lifetime - 1 }

/-- Embedding of `DrawParticle` (snow.cpp:162-166): fill the axis-aligned square of the
particle's radius centered on its position, in its converted color. -/
def DrawParticle (w h : ℤ) (buf : Pix) (p : Particle) : Pix :=
  FillRect w h buf (p.x - p.radius) (p.y - p.radius) (p.x + p.radius)
    (p.y + p.radius) (GetColor p.color)

/-- One iteration of the simulate-and-draw loop body (snow.cpp:254-265): a
slot with nonzero lifetime below one is skipped, otherwise it is animated
and drawn. -/
def simSlot (w h : ℤ) (dt : ℚ) (p : Particle) (buf : Pix) : Particle × Pix :=
  if p.lifetime ≠ 0 ∧ p.lifetime < 1 then (p, buf)
  else
    let p2 := AnimateParticle p dt
    (p2, DrawParticle w h buf p2)

/-- The simulate-and-draw loop over every slot, in index order
(snow.cpp:254-265). -/
def simulateAll (w h : ℤ) (dt : ℚ) : List Particle → Pix → List Particle × Pix
  | [], buf => ([], buf)
  | p :: ps, buf =>
    let r := simSlot w h dt p buf
    let rest := simulateAll w h dt ps r.2
    (r.1 :: rest.1, rest.2)

/-- The free-list linking loop (snow.cpp:224-227): set slot i's link to
i + 1 for every i up to n − 2; the last slot is never written and keeps its
prior (zeroed) link. The loop order (source counts down) is immaterial as
the writes touch distinct slots. -/
def linkAux (n : ℕ) : ℕ → List Particle → List Particle
  | _, [] => []
  | i, p :: ps =>
    (if i + 1 < n then { p with next := some (i + 1) } else p) :: linkAux n (i + 1) ps

/-- Free-list construction over the whole particle array. -/
def linkFreeList (ps : List Particle) : List Particle :=
  linkAux ps.length 0 ps

/-- The persistent machine state: the `State` struct of snow.h (particle
array, `availableParticle` as an optional slot index, tick counter) together
with the two process-wide random seed words and the `isInitialized` flag of
the `Memory` block. -/
structure Machine where
  isInitialized : Bool
  seed : ℕ × ℕ
  particles : List Particle
  avail : Option ℕ
  ticks : ℕ
deriving DecidableEq

/-- The zeroed memory block, with a particle array of capacity n. -/
def zeroMachine (n : ℕ) : Machine :=
  ⟨false, (0, 0), List.replicate n zeroParticle, none, 0⟩

/-- One-time setup (snow.cpp:219-232): seed the random source with the two
fixed constants, link the free list, point the free-list head at slot 0
(`state->particles`), and mark the block initialized. -/
def initState (m : Machine) : Machine :=
  { m with
    seed := (0x0bdb1dd352d7ddd4, 0x009b18cd16d1df52),
    particles := linkFreeList m.particles,
    avail := some 0,
    isInitialized := true }

/-- Modelled from the spec: `Random()` from math.cpp (missing from src), a
pseudo-random 64-bit draw advancing the two process-wide seed words (spec
§9); embedded as xorshift128+. No claim depends on the drawn values, only on
deterministic seed threading and the reductions applied at use sites. -/
def randomNext (s : ℕ × ℕ) : ℕ × (ℕ × ℕ) :=
  let s1 := s.1
  let s0 := s.2
  let a := (s1 ^^^ (s1 <<< 23)) % 2 ^ 64
  let b := a ^^^ s0 ^^^ (a >>> 18) ^^^ (s0 >>> 5)
  ((b + s0) % 2 ^ 64, (s0, b))

/-- Modelled from the spec: `RandomPercent()` from math.cpp (missing from
src), a draw in [0, 1] (spec §4.5 randomizes alpha in [0.25, 1.0] via
`0.25 + 0.75*RandomPercent()`). -/
def randomPercent (s : ℕ × ℕ) : ℚ × (ℕ × ℕ) :=
  let r := randomNext s
  ((r.1 : ℚ) / (2 ^ 64 - 1), r.2)

/-- Acquire from the pool free list (snow.cpp:242-245): take the head slot
if any, moving the head to that slot's link. -/
def acquire (m : Machine) : Option ℕ × Machine :=
  match m.avail with
  | none => (none, m)
  | some i => (some i, { m with avail := (m.particles.getD i zeroParticle).next })

/-- The spawning step (snow.cpp:241-251): on even ticks, acquire a slot and
initialize it (drawing `Random()` then `RandomPercent()` from the seed);
when the pool is exhausted nothing happens. -/
def spawnStep (w : ℤ) (m : Machine) : Machine :=
  if m.ticks % 2 = 0 then
    match acquire m with
    | (none, m2) => m2
    | (some i, m2) =>
      let r1 := randomNext m2.seed
      let pc := randomPercent r1.2
      { m2 with
        seed := pc.2,
        particles := m2.particles.set i
          (InitParticle w r1.1 pc.1 (m2.particles.getD i zeroParticle)) }
  else m

/-- The body of `UpdateAndRender` after the entry assertion
(snow.cpp:219-267): one-time setup if needed, background clear, spawning,
the simulate-and-draw loop, tick increment. -/
def UpdateAndRenderCore (w h : ℤ) (dt : ℚ) (m : Machine) (buf : Pix) :
    Machine × Pix :=
  let m1 := if m.isInitialized then m else initState m
  let buf1 := backgroundFill w h buf
  let m2 := spawnStep w m1
  let r := simulateAll w h dt m2.particles buf1
  ({ m2 with particles := r.1, ticks := m2.ticks + 1 }, r.2)

/-- Embedding of `UpdateAndRender` (snow.cpp:215-268) including the entry assertion
`Assert(sizeof(State) < memory->size)` (snow.cpp:217); `none` models the
fatal assertion failure. -/
def UpdateAndRender (stateSize memSize : ℕ) (w h : ℤ) (dt : ℚ) (m : Machine)
    (buf : Pix) : Option (Machine × Pix) :=
  if stateSize < memSize then some (UpdateAndRenderCore w h dt m buf) else none

/-- The free-list link of slot i: `state->particles[i].next` as a slot
index. -/
def nextAt (m : Machine) (i : ℕ) : Option ℕ :=
  (m.particles.getD i zeroParticle).next

/-- Repeated Acquire: the list of results of k successive `acquire` calls
and the machine they leave behind. -/
def acquireList : ℕ → Machine → List (Option ℕ) × Machine
  | 0, m => ([], m)
  | k + 1, m =>
    let r := acquire m
    let rest := acquireList k r.2
    (r.1 :: rest.1, rest.2)

lemma floor_natCast_add_half (n : ℕ) : ⌊(n : ℚ) + 1 / 2⌋ = n := by
  have h0 : (((n : ℤ)) : ℚ) ≤ (n : ℚ) + 1 / 2 := by push_cast; linarith
  have h1 : (n : ℚ) + 1 / 2 < ((n : ℤ) : ℚ) + 1 := by push_cast; linarith
  exact Int.floor_eq_iff.mpr ⟨h0, h1⟩

lemma roundHalfAway_natCast (n : ℕ) : roundHalfAway (n : ℚ) = n := by
  unfold roundHalfAway
  rw [if_pos (by positivity), floor_natCast_add_half]

lemma RoundDoubleToUInt32_natCast (n : ℕ) : RoundDoubleToUInt32 (n : ℚ) = n := by
  unfold RoundDoubleToUInt32
  rw [roundHalfAway_natCast]
  exact Int.toNat_natCast n

lemma toByte_natCast (n : ℕ) : toByte (n : ℚ) = n % 256 := by
  unfold toByte
  rw [Int.floor_natCast, Int.toNat_natCast]

lemma Lerp_one (a b : ℚ) : Lerp a b 1 = a := by
  unfold Lerp; ring

/-- With a fully opaque source, `Composite` reproduces the packed source
exactly, whatever the destination. -/
lemma compositeFullAlpha (src dst : Color) (h : src.a = 255) :
    argb (Composite src dst) = argb src := by
  have hp : ((255 : ℕ) : ℚ) / 255 = 1 := by norm_num
  simp only [Composite, argb, h, hp, Lerp_one, toByte_natCast]
  omega

/-- Claim C3 counterexample: the packed result channel of `Composite` is an
8-bit integer and cannot equal the exact rational interpolation value: at
`src = (a 128, r 0, g 0, b 0)` and `dst = (a 255, r 1, g 0, b 0)` the red
channel of the result is 0 while the exact formula gives 127/255. -/
theorem c3_exact_formula_cex :
    ¬ (((Composite ⟨128, 0, 0, 0⟩ ⟨255, 1, 0, 0⟩).r : ℚ)
        = (1 : ℚ) + (128 : ℚ) / 255 * ((0 : ℚ) - 1)) := by
  have hv : (1 : ℚ) + (128 : ℚ) / 255 * ((0 : ℚ) - 1) = 127 / 255 := by norm_num
  have hfl : ⌊(1 : ℚ) + ((128 : ℕ) : ℚ) / 255 * (((0 : ℕ) : ℚ) - ((1 : ℕ) : ℚ))⌋ = 0 := by
    push_cast
    rw [Int.floor_eq_iff]
    norm_num
  simp only [Composite, Lerp, toByte, hv, hfl]
  norm_num

/-- Claim C3 (amended): `Composite(src, dst)` returns alpha `src.a`, and each
color channel is the integer truncation (floor, then the 8-bit store) of
`dst.channel + (src.a/255) × (src.channel − dst.channel)`; when
`src.a = 255` the packed result equals the packed source for every `dst`. -/
theorem c3_composite_quantized (src dst : Color) :
    (Composite src dst).a = src.a
    ∧ (Composite src dst).r
        = (⌊(dst.r : ℚ) + (src.a : ℚ) / 255 * ((src.r : ℚ) - (dst.r : ℚ))⌋).toNat % 256
    ∧ (Composite src dst).g
        = (⌊(dst.g : ℚ) + (src.a : ℚ) / 255 * ((src.g : ℚ) - (dst.g : ℚ))⌋).toNat % 256
    ∧ (Composite src dst).b
        = (⌊(dst.b : ℚ) + (src.a : ℚ) / 255 * ((src.b : ℚ) - (dst.b : ℚ))⌋).toNat % 256
    ∧ (src.a = 255 → argb (Composite src dst) = argb src) := by
  refine ⟨rfl, rfl, rfl, rfl, fun h => compositeFullAlpha src dst h⟩

/-- Claim C3 witness: the opaque case of the amended claim at a concrete
source and destination. -/
theorem c3_witness :
    argb (Composite ⟨255, 7, 8, 9⟩ ⟨3, 200, 100, 50⟩) = argb ⟨255, 7, 8, 9⟩ :=
  (c3_composite_quantized ⟨255, 7, 8, 9⟩ ⟨3, 200, 100, 50⟩).2.2.2.2 rfl

lemma channel_roundtrip (c k : ℕ) :
    RoundDoubleToUInt32 ((((c >>> k) &&& 255 : ℕ) : ℚ) / 255 * 255) % 256
      = c / 2 ^ k % 256 := by
  have h1 : (c >>> k) &&& 255 = c / 2 ^ k % 256 := by
    rw [Nat.shiftRight_eq_div_pow]
    exact Nat.and_pow_two_sub_one_eq_mod _ 8
  have h2 : (((c / 2 ^ k % 256 : ℕ) : ℚ)) / 255 * 255 = ((c / 2 ^ k % 256 : ℕ) : ℚ) :=
    div_mul_cancel₀ _ (by norm_num)
  rw [h1, h2, RoundDoubleToUInt32_natCast]
  omega

/-- Claim C4: for every 32-bit packed color, converting to a normalized
double color with `GetDoubleColor` and back with `GetColor` returns the
same packed value, channel by channel. -/
theorem c4_roundtrip (c : ℕ) (h : c < 2 ^ 32) :
    argb (GetColor (GetDoubleColor c)) = c := by
  unfold GetDoubleColor GetColor argb
  simp only [channel_roundtrip]
  omega

/-- Claim C4 witness: the round-trip at the concrete packed color
0xAABBCCDD. -/
theorem c4_witness : argb (GetColor (GetDoubleColor 0xAABBCCDD)) = 0xAABBCCDD :=
  c4_roundtrip 0xAABBCCDD (by decide)

lemma mem_intRange {x lo hi : ℤ} : x ∈ intRange lo hi ↔ lo ≤ x ∧ x < hi := by
  unfold intRange
  simp only [List.mem_map, List.mem_range]
  constructor
  · rintro ⟨i, hlt, rfl⟩
    omega
  · rintro ⟨h1, h2⟩
    refine ⟨(x - lo).toNat, by omega, ?_⟩
    omega

lemma nodup_intRange (lo hi : ℤ) : (intRange lo hi).Nodup := by
  unfold intRange
  apply List.Nodup.map
  · intro a b hab
    have h2 : lo + (a : ℤ) = lo + (b : ℤ) := hab
    omega
  · exact List.nodup_range _

lemma fillCols_apply (src : Color) (y : ℤ) :
    ∀ (xs : List ℤ), xs.Nodup → ∀ (px : Pix) (x0 y0 : ℤ),
      fillCols src y xs px x0 y0
        = if x0 ∈ xs ∧ y0 = y then fillPixel src (px x0 y0) else px x0 y0 := by
  intro xs
  induction xs with
  | nil =>
    intro _ px x0 y0
    simp [fillCols]
  | cons x xs ih =>
    intro hnd px x0 y0
    have hx : x ∉ xs := (List.nodup_cons.mp hnd).1
    have hnd' : xs.Nodup := (List.nodup_cons.mp hnd).2
    rw [fillCols, ih hnd' _ x0 y0]
    by_cases hmem : x0 ∈ xs
    · have hne : x0 ≠ x := fun he => hx (he ▸ hmem)
      have hw : writeAt px x y (fillPixel src (px x y)) x0 y0 = px x0 y0 := by
        unfold writeAt
        exact if_neg fun hc => hne hc.1
      rw [hw]
      by_cases hy : y0 = y
      · rw [if_pos ⟨hmem, hy⟩, if_pos ⟨List.mem_cons_of_mem _ hmem, hy⟩]
      · rw [if_neg fun hc => hy hc.2, if_neg fun hc => hy hc.2]
    · have hcond : ¬ (x0 ∈ xs ∧ y0 = y) := fun hc => hmem hc.1
      rw [if_neg hcond]
      unfold writeAt
      by_cases hxy : x0 = x ∧ y0 = y
      · obtain ⟨h1, h2⟩ := hxy
        subst h1
        subst h2
        rw [if_pos ⟨rfl, rfl⟩, if_pos ⟨List.mem_cons_self _ _, rfl⟩]
      · rw [if_neg hxy, if_neg]
        rintro ⟨hm, hy⟩
        rcases List.mem_cons.mp hm with h1 | h1
        · exact hxy ⟨h1, hy⟩
        · exact hmem h1

lemma fillRows_apply (src : Color) (xs : List ℤ) (hxs : xs.Nodup) :
    ∀ (ys : List ℤ), ys.Nodup → ∀ (px : Pix) (x0 y0 : ℤ),
      fillRows src xs ys px x0 y0
        = if x0 ∈ xs ∧ y0 ∈ ys then fillPixel src (px x0 y0) else px x0 y0 := by
  intro ys
  induction ys with
  | nil =>
    intro _ px x0 y0
    simp [fillRows]
  | cons y ys ih =>
    intro hnd px x0 y0
    have hy : y ∉ ys := (List.nodup_cons.mp hnd).1
    have hnd' : ys.Nodup := (List.nodup_cons.mp hnd).2
    rw [fillRows, ih hnd' _ x0 y0, fillCols_apply src y xs hxs px x0 y0]
    by_cases hmem : y0 ∈ ys
    · have hne : y0 ≠ y := fun he => hy (he ▸ hmem)
      rw [if_neg (show ¬ (x0 ∈ xs ∧ y0 = y) from fun hc => hne hc.2)]
      by_cases hx0 : x0 ∈ xs
      · rw [if_pos ⟨hx0, hmem⟩, if_pos ⟨hx0, List.mem_cons_of_mem _ hmem⟩]
      · rw [if_neg (show ¬ (x0 ∈ xs ∧ y0 ∈ ys) from fun hc => hx0 hc.1),
          if_neg (show ¬ (x0 ∈ xs ∧ y0 ∈ y :: ys) from fun hc => hx0 hc.1)]
    · rw [if_neg (show ¬ (x0 ∈ xs ∧ y0 ∈ ys) from fun hc => hmem hc.2)]
      by_cases hxy : x0 ∈ xs ∧ y0 = y
      · obtain ⟨h1, h2⟩ := hxy
        subst h2
        rw [if_pos ⟨h1, rfl⟩, if_pos ⟨h1, List.mem_cons_self _ _⟩]
      · rw [if_neg hxy, if_neg]
        rintro ⟨hm, hys⟩
        rcases List.mem_cons.mp hys with h1 | h1
        · exact hxy ⟨hm, h1⟩
        · exact hmem h1

/-- Pointwise description of `FillRect`: a pixel is written (with the
per-pixel fill of its own prior value) iff its coordinate lies in the
clipped rectangle; every other pixel keeps its prior value. -/
lemma FillRect_apply (w h : ℤ) (px : Pix)
    (rminX rminY rmaxX rmaxY : ℚ) (src : Color) (x0 y0 : ℤ) :
    FillRect w h px rminX rminY rmaxX rmaxY src x0 y0
      = if (max 0 (RoundDoubleToInt32 rminX) ≤ x0
              ∧ x0 < min w (RoundDoubleToInt32 rmaxX))
          ∧ (max 0 (RoundDoubleToInt32 rminY) ≤ y0
              ∧ y0 < min h (RoundDoubleToInt32 rmaxY))
        then fillPixel src (px x0 y0) else px x0 y0 := by
  unfold FillRect
  rw [fillRows_apply src _ (nodup_intRange _ _) _ (nodup_intRange _ _) px x0 y0]
  simp only [mem_intRange]

lemma floor_half_eq_zero : ⌊(1 : ℚ) / 2⌋ = 0 := by
  rw [Int.floor_eq_iff]
  norm_num

lemma roundHalfAway_nonpos {q : ℚ} (hq : q ≤ 0) : roundHalfAway q ≤ 0 := by
  unfold roundHalfAway
  by_cases h : 0 ≤ q
  · rw [if_pos h]
    have hq0 : q = 0 := le_antisymm hq h
    rw [hq0]
    rw [show (0 : ℚ) + 1 / 2 = 1 / 2 by norm_num, floor_half_eq_zero]
  · rw [if_neg h]
    push_neg at h
    have h2 : (0 : ℚ) ≤ -q + 1 / 2 := by linarith
    have h3 := Int.floor_nonneg.mpr h2
    omega

lemma le_roundHalfAway {n : ℤ} {q : ℚ} (hn : 0 ≤ n) (hq : (n : ℚ) ≤ q) :
    n ≤ roundHalfAway q := by
  unfold roundHalfAway
  have h0 : (0 : ℚ) ≤ q := le_trans (by exact_mod_cast hn) hq
  rw [if_pos h0, Int.le_floor]
  linarith

/-- Claim C1: `FillRect` writes only at coordinates inside
`[0, width) × [0, height)`; any pixel outside keeps its prior value, and a
rectangle lying entirely outside the buffer leaves the whole buffer
unchanged. -/
theorem c1_fillrect_clips (w h : ℤ) (px : Pix)
    (rminX rminY rmaxX rmaxY : ℚ) (src : Color) :
    (∀ x y : ℤ, ¬ (0 ≤ x ∧ x < w ∧ 0 ≤ y ∧ y < h) →
        FillRect w h px rminX rminY rmaxX rmaxY src x y = px x y)
    ∧ (0 ≤ w → 0 ≤ h →
        (rmaxX ≤ 0 ∨ (w : ℚ) ≤ rminX ∨ rmaxY ≤ 0 ∨ (h : ℚ) ≤ rminY) →
        FillRect w h px rminX rminY rmaxX rmaxY src = px) := by
  constructor
  · intro x y hout
    rw [FillRect_apply, if_neg]
    rintro ⟨⟨hx1, hx2⟩, hy1, hy2⟩
    exact hout ⟨le_trans (le_max_left 0 _) hx1,
      lt_of_lt_of_le hx2 (min_le_left w _),
      le_trans (le_max_left 0 _) hy1,
      lt_of_lt_of_le hy2 (min_le_left h _)⟩
  · intro hw hh hcase
    funext x y
    rw [FillRect_apply, if_neg]
    rintro ⟨⟨hx1, hx2⟩, hy1, hy2⟩
    have hx0 : (0 : ℤ) ≤ x := le_trans (le_max_left 0 _) hx1
    have hy0 : (0 : ℤ) ≤ y := le_trans (le_max_left 0 _) hy1
    rcases hcase with hc | hc | hc | hc
    · have := roundHalfAway_nonpos hc
      have hxr : x < RoundDoubleToInt32 rmaxX := lt_of_lt_of_le hx2 (min_le_right w _)
      unfold RoundDoubleToInt32 at hxr
      omega
    · have := le_roundHalfAway hw hc
      have hxl : RoundDoubleToInt32 rminX ≤ x := le_trans (le_max_right 0 _) hx1
      have hxw : x < w := lt_of_lt_of_le hx2 (min_le_left w _)
      unfold RoundDoubleToInt32 at hxl
      omega
    · have := roundHalfAway_nonpos hc
      have hyr : y < RoundDoubleToInt32 rmaxY := lt_of_lt_of_le hy2 (min_le_right h _)
      unfold RoundDoubleToInt32 at hyr
      omega
    · have := le_roundHalfAway hh hc
      have hyl : RoundDoubleToInt32 rminY ≤ y := le_trans (le_max_right 0 _) hy1
      have hyh : y < h := lt_of_lt_of_le hy2 (min_le_left h _)
      unfold RoundDoubleToInt32 at hyl
      omega

/-- Claim C1 witness: on a 2×2 buffer, an out-of-bounds coordinate is
untouched, and a rectangle with `maxX ≤ 0` writes zero pixels. -/
theorem c1_witness :
    FillRect 2 2 (fun _ _ => 7) 5 0 0 1 ⟨255, 0, 0, 0⟩ 5 5 = 7
    ∧ FillRect 2 2 (fun _ _ => 7) 5 0 0 1 ⟨255, 0, 0, 0⟩ = (fun _ _ => 7) :=
  ⟨(c1_fillrect_clips 2 2 (fun _ _ => 7) 5 0 0 1 ⟨255, 0, 0, 0⟩).1 5 5 (by decide),
   (c1_fillrect_clips 2 2 (fun _ _ => 7) 5 0 0 1 ⟨255, 0, 0, 0⟩).2
     (by decide) (by decide) (Or.inl (le_refl 0))⟩

/-- Claim C2: the fast overwrite path of `FillRect` is guarded by
`srcColor.a == 1`, not 255: with source color (a 1, r 255, g 0, b 0) over an
opaque black pixel, the code overwrites the pixel with the packed source
0x01FF0000, while blending with `Composite` (what the claim requires for
every non-255 alpha) would store 0x01010000. -/
theorem c2_fastpath_divergence :
    fillPixel ⟨1, 255, 0, 0⟩ (argb ⟨255, 0, 0, 0⟩) = argb ⟨1, 255, 0, 0⟩
    ∧ argb (Composite ⟨1, 255, 0, 0⟩ (colorOfArgb (argb ⟨255, 0, 0, 0⟩)))
        = 0x01010000
    ∧ argb ⟨1, 255, 0, 0⟩ ≠ 0x01010000 := by
  have hdst : colorOfArgb (argb ⟨255, 0, 0, 0⟩) = ⟨255, 0, 0, 0⟩ := by decide
  have hL1 : toByte (Lerp ((255 : ℕ) : ℚ) ((0 : ℕ) : ℚ) (((1 : ℕ) : ℚ) / 255)) = 1 := by
    have he : Lerp ((255 : ℕ) : ℚ) ((0 : ℕ) : ℚ) (((1 : ℕ) : ℚ) / 255) = 1 := by
      unfold Lerp
      norm_num
    rw [he]
    unfold toByte
    rw [Int.floor_one]
    rfl
  have hL0 : toByte (Lerp ((0 : ℕ) : ℚ) ((0 : ℕ) : ℚ) (((1 : ℕ) : ℚ) / 255)) = 0 := by
    have he : Lerp ((0 : ℕ) : ℚ) ((0 : ℕ) : ℚ) (((1 : ℕ) : ℚ) / 255) = 0 := by
      unfold Lerp
      norm_num
    rw [he]
    unfold toByte
    rw [Int.floor_zero]
    rfl
  have hcomp : Composite ⟨1, 255, 0, 0⟩ ⟨255, 0, 0, 0⟩ = ⟨1, 1, 0, 0⟩ := by
    unfold Composite
    rw [Color.mk.injEq]
    exact ⟨rfl, hL1, hL0, hL0⟩
  refine ⟨?_, ?_, by decide⟩
  · unfold fillPixel
    rw [if_pos rfl]
  · rw [hdst, hcomp]
    decide

lemma roundHalfAway_eq (q : ℚ) (n : ℤ) (h1 : 0 ≤ q)
    (h2 : (n : ℚ) ≤ q + 1 / 2) (h3 : q + 1 / 2 < n + 1) :
    roundHalfAway q = n := by
  unfold roundHalfAway
  rw [if_pos h1]
  exact Int.floor_eq_iff.mpr ⟨h2, h3⟩

lemma getColor_background : GetColor background = ⟨255, 3, 5, 13⟩ := by
  have ha : roundHalfAway (background.a * 255) = 255 :=
    roundHalfAway_eq _ 255 (by norm_num [background]) (by norm_num [background])
      (by norm_num [background])
  have hr : roundHalfAway (background.r * 255) = 3 :=
    roundHalfAway_eq _ 3 (by norm_num [background]) (by norm_num [background])
      (by norm_num [background])
  have hg : roundHalfAway (background.g * 255) = 5 :=
    roundHalfAway_eq _ 5 (by norm_num [background]) (by norm_num [background])
      (by norm_num [background])
  have hb : roundHalfAway (background.b * 255) = 13 :=
    roundHalfAway_eq _ 13 (by norm_num [background]) (by norm_num [background])
      (by norm_num [background])
  unfold GetColor RoundDoubleToUInt32
  rw [ha, hr, hg, hb]
  decide

/-- A fully opaque source makes the per-pixel fill write the packed source,
whatever the prior pixel value. -/
lemma fillPixelFullAlpha (src : Color) (h : src.a = 255) (v : ℕ) :
    fillPixel src v = argb src := by
  unfold fillPixel
  rw [if_neg (by omega)]
  exact compositeFullAlpha src _ h

lemma roundHalfAway_intCast_of_nonneg (n : ℤ) (hn : 0 ≤ n) :
    roundHalfAway (n : ℚ) = n := by
  unfold roundHalfAway
  rw [if_pos (by exact_mod_cast hn)]
  exact Int.floor_eq_iff.mpr ⟨by linarith, by linarith⟩

/-- Claim C7: the packed form of the fixed background color is
(a 255, r 3, g 5, b 13), and the background-clear stage of the entry point
sets every pixel of a 100×100 buffer to that packed value 0xFF03050D,
whatever the buffer held before. -/
theorem c7_background (px : Pix) (x y : ℤ)
    (hx0 : 0 ≤ x) (hx1 : x < 100) (hy0 : 0 ≤ y) (hy1 : y < 100) :
    GetColor background = ⟨255, 3, 5, 13⟩
    ∧ backgroundFill 100 100 px x y = 0xFF03050D := by
  refine ⟨getColor_background, ?_⟩
  unfold backgroundFill
  rw [getColor_background, FillRect_apply]
  have h0 : RoundDoubleToInt32 (0 : ℚ) = 0 := by
    unfold RoundDoubleToInt32
    have := roundHalfAway_intCast_of_nonneg 0 (le_refl 0)
    simpa using this
  have h100 : RoundDoubleToInt32 (((100 : ℤ) : ℚ)) = 100 := by
    unfold RoundDoubleToInt32
    exact roundHalfAway_intCast_of_nonneg 100 (by decide)
  rw [h0, h100, if_pos]
  · rw [fillPixelFullAlpha ⟨255, 3, 5, 13⟩ rfl]
    decide
  · constructor
    · constructor
      · simp
        omega
      · simp
        omega
    · constructor
      · simp
        omega
      · simp
        omega

/-- Claim C7 witness: a concrete in-bounds pixel of a 100×100 buffer after
the background clear. -/
theorem c7_witness :
    GetColor background = ⟨255, 3, 5, 13⟩
    ∧ backgroundFill 100 100 (fun _ _ => 0) 17 93 = 0xFF03050D :=
  c7_background (fun _ _ => 0) 17 93 (by decide) (by decide) (by decide) (by decide)

/-- Claim C6 counterexample: the assertion is strict. With a memory block of
size exactly `sizeof(State)` (both 8 here) the precondition `size ≥
sizeof(State)` of the claim holds, yet `Assert(sizeof(State) <
memory->size)` fails, so the claim is false at that input. -/
theorem c6_boundary_cex :
    ¬ (∀ (stateSize memSize : ℕ) (w h : ℤ) (dt : ℚ) (m : Machine) (buf : Pix),
        stateSize ≤ memSize →
        (UpdateAndRender stateSize memSize w h dt m buf).isSome = true) := by
  intro hcl
  have hc := hcl 8 8 100 100 0 (zeroMachine 1) (fun _ _ => 0) (le_refl 8)
  rw [UpdateAndRender, if_neg (by omega)] at hc
  simp at hc

/-- Claim C6 (amended): the entry assertion of `UpdateAndRender` holds
exactly when the memory block is strictly larger than `sizeof(State)`; under
that strict bound the call never hits the assertion. -/
theorem c6_assert_strict (stateSize memSize : ℕ) (w h : ℤ) (dt : ℚ)
    (m : Machine) (buf : Pix) (hlt : stateSize < memSize) :
    UpdateAndRender stateSize memSize w h dt m buf
      = some (UpdateAndRenderCore w h dt m buf) := by
  unfold UpdateAndRender
  rw [if_pos hlt]

/-- Claim C6 witness: a strictly larger memory block (8 > 4) passes the
assertion. -/
theorem c6_witness :
    UpdateAndRender 4 8 100 100 0 (zeroMachine 1) (fun _ _ => 0)
      = some (UpdateAndRenderCore 100 100 0 (zeroMachine 1) (fun _ _ => 0)) :=
  c6_assert_strict 4 8 100 100 0 (zeroMachine 1) (fun _ _ => 0) (by decide)

/-- Claim C8: a freshly initialized particle has radius 5/2, `y = −5`
(that is, −2 × radius), `x = Random() % width` in `[0, width)`, alpha in
`[1/4, 1]` when the percent draw is in `[0, 1]`, and lifetime 200. -/
theorem c8_spawn_geometry (w : ℤ) (randVal : ℕ) (pct : ℚ) (p : Particle)
    (hw : 0 < w) (hp0 : 0 ≤ pct) (hp1 : pct ≤ 1) :
    (InitParticle w randVal pct p).radius = 5 / 2
    ∧ (InitParticle w randVal pct p).y = -5
    ∧ 0 ≤ (InitParticle w randVal pct p).x
    ∧ (InitParticle w randVal pct p).x < (w : ℚ)
    ∧ 1 / 4 ≤ (InitParticle w randVal pct p).color.a
    ∧ (InitParticle w randVal pct p).color.a ≤ 1
    ∧ (InitParticle w randVal pct p).lifetime = 200 := by
  have hxlt : ((randVal % w.toNat : ℕ) : ℚ) < (w : ℚ) := by
    have h1 : randVal % w.toNat < w.toNat := Nat.mod_lt _ (by omega)
    have h2 : ((randVal % w.toNat : ℕ) : ℚ) < ((w.toNat : ℕ) : ℚ) := by
      exact_mod_cast h1
    have h3 : ((w.toNat : ℕ) : ℚ) = (w : ℚ) := by
      rw [← Int.cast_natCast, Int.toNat_of_nonneg (le_of_lt hw)]
    rw [h3] at h2
    exact h2
  refine ⟨rfl, by norm_num [InitParticle], ?_, ?_, ?_, ?_, rfl⟩
  · show (0 : ℚ) ≤ ((randVal % w.toNat : ℕ) : ℚ)
    exact Nat.cast_nonneg _
  · show ((randVal % w.toNat : ℕ) : ℚ) < (w : ℚ)
    exact hxlt
  · show (1 : ℚ) / 4 ≤ 1 / 4 + 3 / 4 * pct
    linarith
  · show (1 : ℚ) / 4 + 3 / 4 * pct ≤ 1
    linarith

/-- Claim C8 witness: spawn in a width-100 buffer with percent draw 0. -/
theorem c8_witness :
    (InitParticle 100 12345 0 zeroParticle).radius = 5 / 2
    ∧ (InitParticle 100 12345 0 zeroParticle).y = -5
    ∧ 0 ≤ (InitParticle 100 12345 0 zeroParticle).x
    ∧ (InitParticle 100 12345 0 zeroParticle).x < ((100 : ℤ) : ℚ)
    ∧ 1 / 4 ≤ (InitParticle 100 12345 0 zeroParticle).color.a
    ∧ (InitParticle 100 12345 0 zeroParticle).color.a ≤ 1
    ∧ (InitParticle 100 12345 0 zeroParticle).lifetime = 200 :=
  c8_spawn_geometry 100 12345 0 zeroParticle (by decide) (le_refl 0) zero_le_one

lemma intRange_nil {lo hi : ℤ} (h : hi ≤ lo) : intRange lo hi = [] := by
  unfold intRange
  rw [show (hi - lo).toNat = 0 by omega]
  rfl

lemma fillRows_nil_xs (src : Color) :
    ∀ (ys : List ℤ) (px : Pix), fillRows src [] ys px = px := by
  intro ys
  induction ys with
  | nil => intro px; rfl
  | cons y ys ih =>
    intro px
    rw [fillRows]
    exact ih px

lemma RoundDoubleToInt32_zero : RoundDoubleToInt32 (0 : ℚ) = 0 := by
  unfold RoundDoubleToInt32
  have h := roundHalfAway_intCast_of_nonneg 0 (le_refl 0)
  simpa using h

/-- A particle whose position and radius are zero fills an empty rectangle:
its x range `[max 0 0, min w 0)` is empty for every buffer width. -/
lemma drawParticle_zero_geometry (w h : ℤ) (buf : Pix) (p : Particle)
    (hx : p.x = 0) (hr : p.radius = 0) : DrawParticle w h buf p = buf := by
  unfold DrawParticle FillRect
  rw [hx, hr]
  rw [show (0 : ℚ) - 0 = 0 by norm_num, show (0 : ℚ) + 0 = 0 by norm_num,
    RoundDoubleToInt32_zero]
  rw [intRange_nil (show min w 0 ≤ max 0 0 by omega)]
  exact fillRows_nil_xs _ _ _

/-- Claim C9: a never-acquired (zeroed) slot produces no visible pixels: on
its first pass it fails the skip test, is animated (lifetime becomes −1) and
passed to the rasterizer, which writes nothing since the radius-0 square is
empty; on every later pass the skip test holds and the slot is left exactly
as it is, with the buffer untouched. -/
theorem c9_zero_slot (dt dt2 : ℚ) (w h : ℤ) (buf buf2 : Pix) :
    simSlot w h dt zeroParticle buf = (AnimateParticle zeroParticle dt, buf)
    ∧ (AnimateParticle zeroParticle dt).lifetime = -1
    ∧ simSlot w h dt2 (AnimateParticle zeroParticle dt) buf2
        = (AnimateParticle zeroParticle dt, buf2) := by
  refine ⟨?_, by simp [AnimateParticle, zeroParticle], ?_⟩
  · unfold simSlot
    rw [if_neg (by simp [zeroParticle])]
    rw [Prod.mk.injEq]
    refine ⟨rfl, drawParticle_zero_geometry w h buf _ ?_ ?_⟩
    · simp [AnimateParticle, zeroParticle]
    · simp [AnimateParticle, zeroParticle]
  · unfold simSlot
    rw [if_pos (by simp [AnimateParticle, zeroParticle])]

/-- Claim C10: `UpdateAndRender` is deterministic: equal state blocks, seed
words, particle arrays, free-list heads, tick counters, buffers and elapsed
time produce equal results. -/
theorem c10_deterministic (stateSize memSize : ℕ) (w h : ℤ) (dt : ℚ)
    (m1 m2 : Machine) (b1 b2 : Pix)
    (hinit : m1.isInitialized = m2.isInitialized)
    (hseed : m1.seed = m2.seed)
    (hparts : m1.particles = m2.particles)
    (havail : m1.avail = m2.avail)
    (hticks : m1.ticks = m2.ticks)
    (hbuf : b1 = b2) :
    UpdateAndRender stateSize memSize w h dt m1 b1
      = UpdateAndRender stateSize memSize w h dt m2 b2 := by
  have hm : m1 = m2 := by
    cases m1
    cases m2
    simp_all
  rw [hm, hbuf]

/-- Claim C10 witness: two identical concrete invocations agree. -/
theorem c10_witness :
    UpdateAndRender 1 2 5 5 0 (zeroMachine 2) (fun _ _ => 0)
      = UpdateAndRender 1 2 5 5 0 (zeroMachine 2) (fun _ _ => 0) :=
  c10_deterministic 1 2 5 5 0 (zeroMachine 2) (zeroMachine 2)
    (fun _ _ => 0) (fun _ _ => 0) rfl rfl rfl rfl rfl rfl

lemma linkAux_replicate_getD (n : ℕ) :
    ∀ (cnt i k : ℕ),
      (linkAux n i (List.replicate cnt zeroParticle)).getD k zeroParticle
        = if k < cnt ∧ i + k + 1 < n
          then { zeroParticle with next := some (i + k + 1) }
          else zeroParticle := by
  intro cnt
  induction cnt with
  | zero =>
    intro i k
    simp [linkAux]
  | succ c ih =>
    intro i k
    rw [List.replicate_succ, linkAux]
    cases k with
    | zero =>
      rw [List.getD_cons_zero]
      by_cases hc : i + 1 < n
      · rw [if_pos hc, if_pos (show 0 < c + 1 ∧ i + 0 + 1 < n from ⟨Nat.succ_pos c, by omega⟩)]
      · rw [if_neg hc, if_neg (fun hcon => hc (by omega))]
    | succ k2 =>
      rw [List.getD_cons_succ, ih (i + 1) k2]
      have e : i + 1 + k2 + 1 = i + (k2 + 1) + 1 := by omega
      rw [e]
      by_cases h1 : k2 < c ∧ i + (k2 + 1) + 1 < n
      · rw [if_pos h1, if_pos (show k2 + 1 < c + 1 ∧ i + (k2 + 1) + 1 < n from
          ⟨Nat.succ_lt_succ h1.1, h1.2⟩)]
      · rw [if_neg h1, if_neg (fun hcon => h1 ⟨by omega, hcon.2⟩)]

/-- After one-time setup of a zeroed block with capacity N, slot i links to
slot i + 1 when i + 1 < N, and every other slot (the last one included)
links nowhere. -/
lemma initState_nextAt (N i : ℕ) :
    nextAt (initState (zeroMachine N)) i
      = if i + 1 < N then some (i + 1) else none := by
  unfold nextAt initState zeroMachine linkFreeList
  rw [show (List.replicate N zeroParticle).length = N from List.length_replicate N zeroParticle]
  show ((linkAux N 0 (List.replicate N zeroParticle)).getD i zeroParticle).next = _
  rw [linkAux_replicate_getD N N 0 i]
  by_cases hc : i + 1 < N
  · rw [if_pos (show i < N ∧ 0 + i + 1 < N from ⟨by omega, by omega⟩), if_pos hc]
    show some (0 + i + 1) = some (i + 1)
    norm_num
  · rw [if_neg (fun hcon => hc (by omega)), if_neg hc]
    rfl

lemma acquireList_linked (N : ℕ) (m : Machine)
    (hnext : ∀ i, nextAt m i = if i + 1 < N then some (i + 1) else none) :
    ∀ (k j : ℕ), j + k = N →
      acquireList k { m with avail := some j }
        = ((List.range k).map (fun t => some (j + t)),
           { m with avail := if k = 0 then some j else none }) := by
  intro k
  induction k with
  | zero =>
    intro j hj
    simp [acquireList]
  | succ k ih =>
    intro j hj
    have ha : acquire { m with avail := some j }
        = (some j, { m with avail := nextAt m j }) := rfl
    simp only [acquireList, ha]
    rw [hnext j]
    by_cases hc : j + 1 < N
    · have hk : k ≠ 0 := by omega
      rw [if_pos hc, ih (j + 1) (by omega)]
      rw [Prod.mk.injEq]
      constructor
      · rw [List.range_succ_eq_map, List.map_cons, List.map_map]
        rw [show j + 0 = j from by omega]
        congr 1
        refine List.map_congr_left fun t _ => ?_
        show some (j + 1 + t) = some (j + (t + 1))
        rw [show j + 1 + t = j + (t + 1) from by omega]
      · rw [if_neg hk, if_neg (Nat.succ_ne_zero k)]
    · have hk : k = 0 := by omega
      subst hk
      rw [if_neg hc]
      simp only [acquireList]
      rfl

/-- Claim C5: after one-time setup with capacity N the free list links slot
i to i + 1 for i < N − 1, the last slot's link is empty, and the head is
slot 0; the N successive Acquire calls then succeed and return the distinct
slots 0, …, N − 1 in order (so the list has no cycle), the (N + 1)th
Acquire returns none, and once the pool is exhausted the spawning step
leaves the machine unchanged. -/
theorem c5_freelist (N : ℕ) (hN : 1 ≤ N) :
    (∀ i, i + 1 < N →
        nextAt (initState (zeroMachine N)) i = some (i + 1))
    ∧ nextAt (initState (zeroMachine N)) (N - 1) = none
    ∧ (initState (zeroMachine N)).avail = some 0
    ∧ (acquireList N (initState (zeroMachine N))).1 = (List.range N).map some
    ∧ (acquireList N (initState (zeroMachine N))).2.avail = none
    ∧ (acquire (acquireList N (initState (zeroMachine N))).2).1 = none
    ∧ ∀ w, spawnStep w (acquireList N (initState (zeroMachine N))).2
        = (acquireList N (initState (zeroMachine N))).2 := by
  have hnext := initState_nextAt N
  have heq : ({ initState (zeroMachine N) with avail := some 0 } : Machine)
      = initState (zeroMachine N) := rfl
  have hmain := acquireList_linked N (initState (zeroMachine N)) hnext N 0 (by omega)
  rw [heq] at hmain
  have hres : (acquireList N (initState (zeroMachine N))).1 = (List.range N).map some := by
    rw [hmain]
    refine List.map_congr_left fun t _ => ?_
    show some (0 + t) = some t
    rw [Nat.zero_add]
  have hav : (acquireList N (initState (zeroMachine N))).2.avail = none := by
    rw [hmain]
    show (if N = 0 then some 0 else none) = none
    rw [if_neg (by omega)]
  have hacq : acquire (acquireList N (initState (zeroMachine N))).2
      = (none, (acquireList N (initState (zeroMachine N))).2) := by
    unfold acquire
    rw [hav]
  refine ⟨?_, ?_, rfl, hres, hav, ?_, ?_⟩
  · intro i hi
    rw [hnext i, if_pos hi]
  · rw [hnext (N - 1), if_neg (by omega)]
  · rw [hacq]
  · intro w
    unfold spawnStep
    rw [hacq]
    rw [ite_self]

/-- Claim C5 witness: capacity 3 yields the acquire results
[0, 1, 2] and then a failing fourth acquire. -/
theorem c5_witness :
    (acquireList 3 (initState (zeroMachine 3))).1 = (List.range 3).map some
    ∧ (acquire (acquireList 3 (initState (zeroMachine 3))).2).1 = none :=
  ⟨(c5_freelist 3 (by decide)).2.2.2.1,
   (c5_freelist 3 (by decide)).2.2.2.2.2.1⟩

end Snow
